import Mathlib

/-!
Shallow embedding of the `pga` PostgreSQL pool adapter
(`src/pga.js`, `src/sequence.js`).

The adapter is callback-based JavaScript over an external connection pool.
We embed it as pure Lean functions: the behaviour of the external pool and
connection is fixed by an environment record (which query succeeds or fails,
and with what value), and each embedded operation returns the trace of
observable events it performs — queries issued on the leased connection,
lease releases (`done`), and invocations of the user-supplied completion
callback.  Mutable accumulators become explicit state passing; the
completion order of concurrent one-shot queries becomes an explicit
`order : List Nat` parameter.
-/

namespace Pga

/-- Errors delivered by the pool or a query; abstracted as naturals. -/
abbrev Err := Nat

/-- Query results (`result` objects of the pg driver); abstracted as naturals. -/
abbrev Res := Nat

/-- A statement object as accepted by `transact`: `{ text, values }`
(`values` defaults to `[]` in the source when absent). -/
structure Statement where
  text : String
  values : List String
deriving DecidableEq, Repr

/-- `sequence` from `sequence.js`, inner loop.  The JS driver keeps a shared
mutable accumulator array and hands the worker a zero-argument continuation;
here the accumulator is threaded explicitly, so the continuation receives
the updated accumulator.  `process.nextTick` scheduling only bounds stack
depth and is dropped. -/
def seqGo {α β γ : Type} (each : List β → α → (List β → γ) → γ)
    (fin : List β → γ) : List α → List β → γ
  | [], acc => fin acc
  | x :: rest, acc => each acc x (fun acc2 => seqGo each fin rest acc2)

/-- `module.exports = function sequence(arr, each, done)` from `sequence.js`:
drives `each` over `arr` in order with accumulator starting empty, calling
`done` with the final accumulator when exhausted. -/
def sequence {α β γ : Type} (arr : List α) (each : List β → α → (List β → γ) → γ)
    (fin : List β → γ) : γ :=
  seqGo each fin arr []

instance {ε α : Type} [DecidableEq ε] [DecidableEq α] : DecidableEq (Except ε α) :=
  fun a b =>
    match a, b with
    | Except.ok x, Except.ok y => decidable_of_iff (x = y) (by simp)
    | Except.ok _, Except.error _ => isFalse (by simp)
    | Except.error _, Except.ok _ => isFalse (by simp)
    | Except.error e, Except.error f => decidable_of_iff (e = f) (by simp)

/-- Observable events of one `performTransaction` invocation. -/
inductive TxEvent where
  /-- `pool.connect(...)` was invoked. -/
  | connect : TxEvent
  /-- `client.query('BEGIN', ...)` was issued. -/
  | begin : TxEvent
  /-- `client.query(current.text, current.values || [], ...)` was issued. -/
  | stmt : Statement → TxEvent
  /-- `client.query('COMMIT', ...)` was issued. -/
  | commit : TxEvent
  /-- `client.query('ROLLBACK', ...)` was issued. -/
  | rollback : TxEvent
  /-- the lease release function `done` was invoked. -/
  | done : TxEvent
  /-- the user callback was invoked: `Except.error e` for `callback(e, null)`,
  `Except.ok rs` for `callback(null, rs)`. -/
  | cb : Except Err (List Res) → TxEvent
deriving DecidableEq, Repr

/-- Behaviour of the pool and the leased connection during one
`performTransaction` invocation: whether `pool.connect`, `BEGIN`, each
statement, `COMMIT` and `ROLLBACK` succeed, and with what values.
Statements execute strictly in sequence on the one connection, so outcomes
are keyed by the statement being executed. -/
structure TxEnv where
  connectError : Option Err
  beginError : Option Err
  stmtResult : Statement → Except Err Res
  commitError : Option Err
  rollbackError : Option Err

/-- `function rollback(client, done, error, callback)` from `pga.js`:
issues `ROLLBACK`; its callback calls `done(rollbackError)` and then
`callback(rollbackError || error, null)`. -/
def rollback (env : TxEnv) (e : Err) : List TxEvent :=
  match env.rollbackError with
  | some r => [TxEvent.rollback, TxEvent.done, TxEvent.cb (Except.error r)]
  | none => [TxEvent.rollback, TxEvent.done, TxEvent.cb (Except.error e)]

/-- The worker closure passed to `sequence` inside `performTransaction`:
runs `client.query(current.text, current.values || [], cb)`; on error it
branches to `rollback`, on success it pushes the result and calls `next()`. -/
def txWorker (env : TxEnv) (results : List Res) (current : Statement)
    (next : List Res → List TxEvent) : List TxEvent :=
  TxEvent.stmt current ::
    match env.stmtResult current with
    | Except.error e => rollback env e
    | Except.ok r => next (results ++ [r])

/-- The completion closure passed to `sequence` inside `performTransaction`:
issues `client.query('COMMIT', cb)`; on error it branches to `rollback`,
on success it calls `done(client)` and `callback(null, results)`. -/
def txCommit (env : TxEnv) (results : List Res) : List TxEvent :=
  TxEvent.commit ::
    match env.commitError with
    | some e => rollback env e
    | none => [TxEvent.done, TxEvent.cb (Except.ok results)]

/-- `function performTransaction(pool, queries, callback)` from `pga.js`:
`pool.connect`; on connect error, `done(client)` then `callback(error, null)`;
otherwise `client.query('BEGIN', ...)` (error branches to `rollback`), then
`sequence(queries, worker, commitClosure)`. -/
def performTransaction (env : TxEnv) (queries : List Statement) : List TxEvent :=
  match env.connectError with
  | some e => [TxEvent.connect, TxEvent.done, TxEvent.cb (Except.error e)]
  | none =>
    TxEvent.connect :: TxEvent.begin ::
      match env.beginError with
      | some e => rollback env e
      | none => sequence queries (txWorker env) (txCommit env)

/-- The user-callback invocations contained in a transaction trace, in order. -/
def cbOutcomes (t : List TxEvent) : List (Except Err (List Res)) :=
  t.filterMap fun ev =>
    match ev with
    | TxEvent.cb o => some o
    | _ => none

/-- The statements actually executed (`client.query(text, params, ...)`)
in a transaction trace, in order. -/
def stmtsOf (t : List TxEvent) : List Statement :=
  t.filterMap fun ev =>
    match ev with
    | TxEvent.stmt s => some s
    | _ => none

/-- Number of `BEGIN` statements issued in a trace. -/
def countBegin (t : List TxEvent) : Nat :=
  t.countP fun ev => ev = TxEvent.begin

/-- Number of `COMMIT` statements issued in a trace. -/
def countCommit (t : List TxEvent) : Nat :=
  t.countP fun ev => ev = TxEvent.commit

/-- Number of `ROLLBACK` statements issued in a trace. -/
def countRollback (t : List TxEvent) : Nat :=
  t.countP fun ev => ev = TxEvent.rollback

/-- Number of invocations of the lease release function `done` in a trace. -/
def countDone (t : List TxEvent) : Nat :=
  t.countP fun ev => ev = TxEvent.done

/-- `function multiple(pool, fn, queries, callback)` from `pga.js`, promise
branch: the first invocation of the internal callback settles the promise —
`reject(error)` when the error argument is set, `resolve(result)` otherwise;
later invocations of an already-settled promise have no effect.  `calls` is
the ordered list of internal-callback invocations, `settleOne` maps one
invocation to the settlement it would produce. -/
def multiple {α β : Type} (calls : List α) (settleOne : α → Except Err β) :
    Option (Except Err β) :=
  calls.head?.map settleOne

/-- `transact(queries)` with no callback (`PostgreSQLAdapter#transact` via
`multiple`): the promise settles with the first callback invocation of
`performTransaction` — error-first, so an error rejects and a result
resolves. -/
def transactPromise (env : TxEnv) (queries : List Statement) :
    Option (Except Err (List Res)) :=
  multiple (cbOutcomes (performTransaction env queries)) id

/-- One invocation of the completion callback made by `performParallel`:
`callback(error, results)` — the error argument (absent on the success
invocation) and the results array as populated at that moment (`none` marks
a still-pending slot of the pre-sized array). -/
structure ParCall where
  error : Option Err
  results : List (Option Res)
deriving DecidableEq, Repr

/-- The mutable state of one `performParallel` invocation: the completion
counter `count` and the pre-sized results array. -/
structure ParState where
  count : Nat
  results : List (Option Res)
deriving DecidableEq, Repr

/-- The completion handler `performParallel` installs on the `index`-th
one-shot `pool.query`: on error, `callback(error, results)` immediately
(no write, no increment); on success, `results[index] = result`, `++count`,
and when the counter reaches `queries.length`, `callback(null, results)`.
`env index` is the pool's outcome for the `index`-th query. -/
def parStep (env : Nat → Except Err Res) (n : Nat) (s : ParState) (index : Nat) :
    ParState × List ParCall :=
  match env index with
  | Except.error e => (s, [⟨some e, s.results⟩])
  | Except.ok r =>
    if s.count + 1 = n then
      (⟨s.count + 1, s.results.set index (some r)⟩, [⟨none, s.results.set index (some r)⟩])
    else
      (⟨s.count + 1, s.results.set index (some r)⟩, [])

/-- Runs the completion handlers of `performParallel` in the order the
one-shot queries finish, threading the shared state and collecting the
callback invocations. -/
def parRun (env : Nat → Except Err Res) (n : Nat) :
    ParState → List Nat → ParState × List ParCall
  | s, [] => (s, [])
  | s, index :: rest =>
    let p := parStep env n s index
    let q := parRun env n p.1 rest
    (q.1, p.2 ++ q.2)

/-- `function performParallel(pool, queries, callback)` from `pga.js`:
`count = 0`, `results = new Array(queries.length)`, then one `pool.query`
per statement.  The pool serves the queries concurrently; `order` is the
sequence of indices in which they complete (an index absent from `order`
models a query that never completes).  The value is the ordered list of
completion-callback invocations. -/
def performParallel (env : Nat → Except Err Res) (queries : List Statement)
    (order : List Nat) : List ParCall :=
  (parRun env queries.length ⟨0, List.replicate queries.length none⟩ order).2

/-- How the promise branch of `multiple` settles on one invocation of the
internal callback of `performParallel`: `reject(error)` when the error
argument is set (discarding the partial results array), `resolve(results)`
otherwise. -/
def settleCall (c : ParCall) : Except Err (List (Option Res)) :=
  match c.error with
  | some e => Except.error e
  | none => Except.ok c.results

/-- `parallel(queries)` with no callback (`PostgreSQLAdapter#parallel` via
`multiple`): the promise settles with the first completion-callback
invocation of `performParallel`, error-first. -/
def parallelPromise (env : Nat → Except Err Res) (queries : List Statement)
    (order : List Nat) : Option (Except Err (List (Option Res))) :=
  multiple (performParallel env queries order) settleCall

/-- `true` on a successful pool outcome, `false` on an error outcome. -/
def exceptIsOk (x : Except Err Res) : Bool :=
  match x with
  | Except.ok _ => true
  | Except.error _ => false

/-- Number of success invocations (`callback(null, results)`) among the
completion-callback invocations of a `performParallel` run. -/
def successCount (calls : List ParCall) : Nat :=
  calls.countP fun c => c.error.isNone

/-- Number of error invocations (`callback(error, results)`) among the
completion-callback invocations of a `performParallel` run. -/
def errorCount (calls : List ParCall) : Nat :=
  calls.countP fun c => c.error.isSome

/-! ### Sample inputs used by witnesses and counterexamples -/

/-- A sample statement. -/
def sampleA : Statement := { text := "a", values := [] }

/-- Another sample statement. -/
def sampleB : Statement := { text := "bb", values := [] }

/-- A pool/connection behaviour where everything succeeds and each statement
returns the length of its text. -/
def envAllOk : TxEnv := ⟨none, none, fun s => Except.ok s.text.length, none, none⟩

/-- A behaviour where `sampleB` fails with error 9 and everything else works. -/
def envStmtFail : TxEnv :=
  ⟨none, none, fun s => (if s.text = "bb" then Except.error 9 else Except.ok 1), none, none⟩

/-- Every statement fails with error 3; `ROLLBACK` itself succeeds. -/
def envRollbackOk : TxEnv := ⟨none, none, fun _ => Except.error 3, none, none⟩

/-- Every statement fails with error 3; `ROLLBACK` itself fails with error 8. -/
def envRollbackFail : TxEnv := ⟨none, none, fun _ => Except.error 3, none, some 8⟩

/-! ### Lemmas about the transaction coordinator -/

theorem cbOutcomes_rollback (env : TxEnv) (e : Err) :
    cbOutcomes (rollback env e) = [Except.error (env.rollbackError.getD e)] := by
  cases h : env.rollbackError <;> simp [rollback, h, cbOutcomes]

theorem countDone_rollback (env : TxEnv) (e : Err) :
    countDone (rollback env e) = 1 := by
  cases h : env.rollbackError <;> simp [rollback, h, countDone]

theorem countRollback_rollback (env : TxEnv) (e : Err) :
    countRollback (rollback env e) = 1 := by
  cases h : env.rollbackError <;> simp [rollback, h, countRollback]

theorem countBegin_rollback (env : TxEnv) (e : Err) :
    countBegin (rollback env e) = 0 := by
  cases h : env.rollbackError <;> simp [rollback, h, countBegin]

theorem countCommit_rollback (env : TxEnv) (e : Err) :
    countCommit (rollback env e) = 0 := by
  cases h : env.rollbackError <;> simp [rollback, h, countCommit]

theorem stmtsOf_rollback (env : TxEnv) (e : Err) :
    stmtsOf (rollback env e) = [] := by
  cases h : env.rollbackError <;> simp [rollback, h, stmtsOf]

theorem stmtsOf_cons (ev : TxEvent) (t : List TxEvent) :
    stmtsOf (ev :: t) =
      (match ev with | TxEvent.stmt s => [s] | _ => []) ++ stmtsOf t := by
  cases ev <;> simp [stmtsOf, List.filterMap_cons]

theorem stmtsOf_append (a b : List TxEvent) :
    stmtsOf (a ++ b) = stmtsOf a ++ stmtsOf b := by
  simp [stmtsOf, List.filterMap_append]

theorem stmtsOf_map_stmt (qs : List Statement) :
    stmtsOf (qs.map TxEvent.stmt) = qs := by
  induction qs with
  | nil => rfl
  | cons q rest ih => simp [List.map_cons, stmtsOf_cons, ih]

theorem cbOutcomes_cons (ev : TxEvent) (t : List TxEvent) :
    cbOutcomes (ev :: t) =
      (match ev with | TxEvent.cb o => [o] | _ => []) ++ cbOutcomes t := by
  cases ev <;> simp [cbOutcomes, List.filterMap_cons]

theorem cbOutcomes_append (a b : List TxEvent) :
    cbOutcomes (a ++ b) = cbOutcomes a ++ cbOutcomes b := by
  simp [cbOutcomes, List.filterMap_append]

theorem cbOutcomes_map_stmt (qs : List Statement) :
    cbOutcomes (qs.map TxEvent.stmt) = [] := by
  induction qs with
  | nil => rfl
  | cons q rest ih => simp [List.map_cons, cbOutcomes_cons, ih]

/-- When every statement of `qs` succeeds, the sequential loop of
`performTransaction` executes each statement in order, accumulates the
results in order, and hands the accumulated results to the COMMIT closure. -/
theorem seqGo_all_ok (env : TxEnv) (f : Statement → Res) :
    ∀ (qs : List Statement) (acc : List Res),
      (∀ s ∈ qs, env.stmtResult s = Except.ok (f s)) →
      seqGo (txWorker env) (txCommit env) qs acc =
        qs.map TxEvent.stmt ++ txCommit env (acc ++ qs.map f)
  | [], acc, _ => by simp [seqGo]
  | q :: rest, acc, h => by
    have hq : env.stmtResult q = Except.ok (f q) := h q (by simp)
    have ih := seqGo_all_ok env f rest (acc ++ [f q]) (fun s hs => h s (by simp [hs]))
    simp [seqGo, txWorker, hq, ih]

/-- When every statement of `pre` succeeds and `cur` fails, the sequential
loop executes exactly `pre` then `cur` and branches to `rollback`; the
statements of `rest` are never attempted. -/
theorem seqGo_first_fail (env : TxEnv) (e : Err) (cur : Statement) (rest : List Statement) :
    ∀ (pre : List Statement) (acc : List Res),
      (∀ s ∈ pre, ∃ r, env.stmtResult s = Except.ok r) →
      env.stmtResult cur = Except.error e →
      seqGo (txWorker env) (txCommit env) (pre ++ cur :: rest) acc =
        pre.map TxEvent.stmt ++ TxEvent.stmt cur :: rollback env e
  | [], acc, _, hcur => by simp [seqGo, txWorker, hcur]
  | q :: pre, acc, h, hcur => by
    obtain ⟨r, hr⟩ := h q (by simp)
    have ih := seqGo_first_fail env e cur rest pre (acc ++ [r])
      (fun s hs => h s (by simp [hs])) hcur
    simp [seqGo, txWorker, hr, ih]

/-- Every path through the sequential loop (statement failure, COMMIT failure,
COMMIT success) invokes the lease release function exactly once. -/
theorem countDone_seqGo (env : TxEnv) :
    ∀ (qs : List Statement) (acc : List Res),
      countDone (seqGo (txWorker env) (txCommit env) qs acc) = 1
  | [], acc => by
    cases h : env.commitError with
    | some e =>
      have hr := countDone_rollback env e
      simp [countDone] at hr
      simp [seqGo, txCommit, h, countDone, hr]
    | none => simp [seqGo, txCommit, h, countDone]
  | q :: rest, acc => by
    cases hq : env.stmtResult q with
    | error e =>
      have hr := countDone_rollback env e
      simp [countDone] at hr
      simp [seqGo, txWorker, hq, countDone, hr]
    | ok r =>
      have ih := countDone_seqGo env rest (acc ++ [r])
      simp [seqGo, txWorker, hq, countDone] at ih ⊢
      exact ih

/-- Every path through the sequential loop invokes the user callback exactly
once. -/
theorem cbOutcomes_seqGo (env : TxEnv) :
    ∀ (qs : List Statement) (acc : List Res),
      ∃ o, cbOutcomes (seqGo (txWorker env) (txCommit env) qs acc) = [o]
  | [], acc => by
    cases h : env.commitError with
    | some e =>
      refine ⟨Except.error (env.rollbackError.getD e), ?_⟩
      simp [seqGo, txCommit, h, cbOutcomes] at *
      simpa [cbOutcomes] using cbOutcomes_rollback env e
    | none => exact ⟨Except.ok acc, by simp [seqGo, txCommit, h, cbOutcomes]⟩
  | q :: rest, acc => by
    cases hq : env.stmtResult q with
    | error e =>
      refine ⟨Except.error (env.rollbackError.getD e), ?_⟩
      simp [seqGo, txWorker, hq, cbOutcomes]
      simpa [cbOutcomes] using cbOutcomes_rollback env e
    | ok r =>
      obtain ⟨o, ho⟩ := cbOutcomes_seqGo env rest (acc ++ [r])
      refine ⟨o, ?_⟩
      simp [seqGo, txWorker, hq, cbOutcomes] at ho ⊢
      exact ho

/-- Every `performTransaction` invocation invokes the user callback exactly
once, on every path (connect failure included). -/
theorem cbOutcomes_performTransaction (env : TxEnv) (qs : List Statement) :
    ∃ o, cbOutcomes (performTransaction env qs) = [o] := by
  cases hc : env.connectError with
  | some e => exact ⟨Except.error e, by simp [performTransaction, hc, cbOutcomes]⟩
  | none =>
    cases hb : env.beginError with
    | some e =>
      refine ⟨Except.error (env.rollbackError.getD e), ?_⟩
      simp [performTransaction, hc, hb, cbOutcomes]
      simpa [cbOutcomes] using cbOutcomes_rollback env e
    | none =>
      obtain ⟨o, ho⟩ := cbOutcomes_seqGo env qs []
      refine ⟨o, ?_⟩
      simp [performTransaction, hc, hb, sequence, cbOutcomes] at ho ⊢
      exact ho

/-! ### Lemmas about the parallel executor -/

theorem exceptIsOk_true_iff (x : Except Err Res) :
    exceptIsOk x = true ↔ ∃ r, x = Except.ok r := by
  cases x <;> simp [exceptIsOk]

/-- Splitting a completion order into two phases. -/
theorem parRun_append (env : Nat → Except Err Res) (n : Nat) :
    ∀ (l1 l2 : List Nat) (s : ParState),
      parRun env n s (l1 ++ l2) =
        ((parRun env n (parRun env n s l1).1 l2).1,
         (parRun env n s l1).2 ++ (parRun env n (parRun env n s l1).1 l2).2)
  | [], l2, s => by simp [parRun]
  | i :: rest, l2, s => by
    have ih := parRun_append env n rest l2 (parStep env n s i).1
    simp [parRun, ih]

/-- While every completed query succeeded and fewer than `n` completions have
been counted, the completion callback is not invoked at all. -/
theorem parRun_ok_no_call (env : Nat → Except Err Res) (n : Nat) :
    ∀ (l : List Nat) (s : ParState),
      (∀ i ∈ l, exceptIsOk (env i) = true) → s.count + l.length < n →
      (parRun env n s l).2 = []
  | [], _, _, _ => rfl
  | i :: rest, s, h, hlt => by
    obtain ⟨r, hr⟩ := (exceptIsOk_true_iff (env i)).1 (h i (by simp))
    have hlt2 : s.count + (rest.length + 1) < n := by simpa using hlt
    have hne : ¬ s.count + 1 = n := by omega
    have ih := parRun_ok_no_call env n rest ⟨s.count + 1, s.results.set i (some r)⟩
      (fun j hj => h j (by simp [hj]))
      (by show s.count + 1 + rest.length < n; omega)
    simp [parRun, parStep, hr, hne, ih]

/-- When every completed query succeeds, the state after processing the
completions counts them all and holds each write at its original index. -/
theorem parRun_ok_state (env : Nat → Except Err Res) (n : Nat) (f : Nat → Res) :
    ∀ (l : List Nat) (s : ParState),
      (∀ i ∈ l, env i = Except.ok (f i)) →
      (parRun env n s l).1 =
        ⟨s.count + l.length, l.foldl (fun r i => r.set i (some (f i))) s.results⟩
  | [], s, _ => by simp [parRun]
  | i :: rest, s, h => by
    have hi := h i (by simp)
    have ih := parRun_ok_state env n f rest ⟨s.count + 1, s.results.set i (some (f i))⟩
      (fun j hj => h j (by simp [hj]))
    have hstep : (parStep env n s i).1 = ⟨s.count + 1, s.results.set i (some (f i))⟩ := by
      by_cases hc : s.count + 1 = n <;> simp [parStep, hi, hc]
    have hrun : (parRun env n s (i :: rest)).1 =
        (parRun env n (parStep env n s i).1 rest).1 := by
      simp [parRun]
    have hlen : s.count + (i :: rest).length = s.count + 1 + rest.length := by
      rw [List.length_cons]
      omega
    rw [hrun, hstep, ih, hlen, List.foldl_cons]

/-- When every completed query succeeds and the completions exactly fill the
counter, the completion callback fires exactly once, with the fully updated
results array. -/
theorem parRun_ok_full (env : Nat → Except Err Res) (n : Nat) (f : Nat → Res) :
    ∀ (l : List Nat) (s : ParState),
      (∀ i ∈ l, env i = Except.ok (f i)) →
      s.count + l.length = n → l ≠ [] →
      (parRun env n s l).2 =
        [⟨none, l.foldl (fun r i => r.set i (some (f i))) s.results⟩]
  | [], _, _, _, hne => absurd rfl hne
  | i :: rest, s, h, hn, _ => by
    have hi := h i (by simp)
    have hn2 : s.count + (rest.length + 1) = n := by simpa using hn
    by_cases hr : rest = []
    · subst hr
      have hc : s.count + 1 = n := by simpa using hn2
      simp [parRun, parStep, hi, hc]
    · have hpos : 0 < rest.length := List.length_pos.2 hr
      have hc : ¬ s.count + 1 = n := by omega
      have ih := parRun_ok_full env n f rest ⟨s.count + 1, s.results.set i (some (f i))⟩
        (fun j hj => h j (by simp [hj])) (by show s.count + 1 + rest.length = n; omega) hr
      simp [parRun, parStep, hi, hc, ih]

/-- Invariant of the completion counter: as long as the counter plus the
number of outstanding completions cannot exceed `n`, the success invocation
(`callback(null, results)`) happens at most once, and it happens at all only
if every processed completion succeeded and the completions exactly filled
the counter. -/
theorem parRun_success_invariant (env : Nat → Except Err Res) (n : Nat) :
    ∀ (l : List Nat) (s : ParState), s.count + l.length ≤ n →
      successCount (parRun env n s l).2 ≤ 1 ∧
      (1 ≤ successCount (parRun env n s l).2 →
        (∀ i ∈ l, exceptIsOk (env i) = true) ∧ s.count + l.length = n)
  | [], s, _ => by simp [parRun, successCount]
  | i :: rest, s, hle => by
    have hle2 : s.count + (rest.length + 1) ≤ n := by simpa using hle
    cases hi : env i with
    | error e =>
      have ih := parRun_success_invariant env n rest s (by omega)
      have hcalls : (parRun env n s (i :: rest)).2 =
          ⟨some e, s.results⟩ :: (parRun env n s rest).2 := by
        simp [parRun, parStep, hi]
      rw [hcalls]
      simp only [successCount, List.countP_cons] at ih ⊢
      constructor
      · simpa using ih.1
      · intro h1
        have h2 := ih.2 (by simpa using h1)
        omega
    | ok r =>
      by_cases hc : s.count + 1 = n
      · have hrest : rest = [] := by
          have := List.length_eq_zero.1 (by omega : rest.length = 0)
          exact this
        subst hrest
        have hcalls : (parRun env n s [i]).2 = [⟨none, s.results.set i (some r)⟩] := by
          simp [parRun, parStep, hi, hc]
        rw [hcalls]
        refine ⟨by simp [successCount], fun _ => ⟨?_, by simpa using hc⟩⟩
        intro j hj
        rw [List.mem_singleton] at hj
        subst hj
        simp [exceptIsOk, hi]
      · have ih := parRun_success_invariant env n rest ⟨s.count + 1, s.results.set i (some r)⟩
          (by show s.count + 1 + rest.length ≤ n; omega)
        have hcalls : (parRun env n s (i :: rest)).2 =
            (parRun env n ⟨s.count + 1, s.results.set i (some r)⟩ rest).2 := by
          simp [parRun, parStep, hi, hc]
        rw [hcalls]
        refine ⟨ih.1, fun h1 => ?_⟩
        have h2 := ih.2 h1
        refine ⟨fun j hj => ?_, ?_⟩
        · rcases List.mem_cons.1 hj with hj2 | hj2
          · subst hj2
            simp [exceptIsOk, hi]
          · exact h2.1 j hj2
        · have hcount : s.count + 1 + rest.length = n := h2.2
          simp only [List.length_cons]
          omega

/-- `errorCount`: the completion callback is invoked with an error exactly
once per failing completed query — regardless of state, order, or how many
queries fail. -/
theorem parRun_error_per_failure (env : Nat → Except Err Res) (n : Nat) :
    ∀ (l : List Nat) (s : ParState),
      errorCount (parRun env n s l).2 = l.countP fun i => !exceptIsOk (env i)
  | [], s => by simp [parRun, errorCount]
  | i :: rest, s => by
    cases hi : env i with
    | error e =>
      have ih := parRun_error_per_failure env n rest s
      simp [parRun, parStep, hi, errorCount, List.countP_cons, exceptIsOk] at ih ⊢
      omega
    | ok r =>
      have ih := parRun_error_per_failure env n rest ⟨s.count + 1, s.results.set i (some r)⟩
      by_cases hc : s.count + 1 = n <;>
        simp [parRun, parStep, hi, hc, errorCount, List.countP_cons, exceptIsOk] at ih ⊢ <;>
        omega

/-- Pointwise description of replaying the index-targeted writes of a
successful parallel run over an initial results array. -/
theorem foldl_set_getElem? (f : Nat → Res) :
    ∀ (l : List Nat) (res : List (Option Res)), (∀ i ∈ l, i < res.length) → ∀ (j : Nat),
      (l.foldl (fun r i => r.set i (some (f i))) res)[j]? =
        if j ∈ l then some (some (f j)) else res[j]?
  | [], res, _, j => by simp
  | i :: rest, res, hlt, j => by
    have ih := foldl_set_getElem? f rest (res.set i (some (f i)))
      (fun k hk => by rw [List.length_set]; exact hlt k (by simp [hk])) j
    rw [List.foldl_cons, ih]
    by_cases hjr : j ∈ rest
    · simp [hjr]
    · by_cases hij : j = i
      · subst hij
        simp [hjr, List.getElem?_set_self (hlt j (by simp))]
      · simp [hjr, hij, List.getElem?_set_ne (Ne.symm hij)]

/-- Replaying the writes of a full successful parallel run (completion order
a permutation of the indices) over the pre-sized empty array yields the
index-aligned results array. -/
theorem foldl_set_range (f : Nat → Res) (n : Nat) (order : List Nat)
    (hperm : order.Perm (List.range n)) :
    order.foldl (fun r i => r.set i (some (f i))) (List.replicate n none) =
      (List.range n).map fun i => some (f i) := by
  have hmem : ∀ i ∈ order, i < n := fun i hi => List.mem_range.1 (hperm.mem_iff.1 hi)
  apply List.ext_getElem?
  intro j
  rw [foldl_set_getElem? f order (List.replicate n none)
    (by simpa [List.length_replicate] using hmem) j]
  by_cases hj : j < n
  · have hjo : j ∈ order := hperm.mem_iff.2 (List.mem_range.2 hj)
    simp [hjo, List.getElem?_map, List.getElem?_range, hj]
  · have hjo : j ∉ order := fun hc => hj (hmem j hc)
    have h1 : (List.replicate n (none : Option Res))[j]? = none := by
      rw [List.getElem?_eq_none]
      simpa [List.length_replicate] using Nat.le_of_not_lt hj
    have h2 : ((List.range n).map fun i => some (f i))[j]? = none := by
      rw [List.getElem?_eq_none]
      simpa using Nat.le_of_not_lt hj
    simp [hjo, h1, h2]

/-! ### Claims about the transaction coordinator -/

/-- C1: for every non-empty statement list in which every statement's
execution succeeds (and BEGIN and COMMIT succeed), `transact` delivers a
success result whose sequence has the same length and index order as the
input list (result `i` is statement `i`'s query result, i.e. the delivered
list is `qs.map f`), and over that invocation exactly one BEGIN and exactly
one COMMIT are issued on the single leased connection, with zero ROLLBACKs
(and the one lease is released exactly once). -/
theorem transact_success_trace (env : TxEnv) (qs : List Statement) (f : Statement → Res)
    (_hne : qs ≠ [])
    (hconn : env.connectError = none) (hbegin : env.beginError = none)
    (hstmt : ∀ s ∈ qs, env.stmtResult s = Except.ok (f s))
    (hcommit : env.commitError = none) :
    cbOutcomes (performTransaction env qs) = [Except.ok (qs.map f)] ∧
    countBegin (performTransaction env qs) = 1 ∧
    countCommit (performTransaction env qs) = 1 ∧
    countRollback (performTransaction env qs) = 0 ∧
    countDone (performTransaction env qs) = 1 := by
  have h := seqGo_all_ok env f qs [] hstmt
  simp [performTransaction, hconn, hbegin, sequence, h, txCommit, hcommit,
    cbOutcomes, countBegin, countCommit, countRollback, countDone,
    List.countP_append, List.countP_map, Function.comp_def]

/-- Witness for `transact_success_trace` at a concrete input. -/
theorem transact_success_trace_witness :
    ([sampleA, sampleB] : List Statement) ≠ [] ∧
    envAllOk.connectError = none ∧ envAllOk.beginError = none ∧
    (∀ s ∈ [sampleA, sampleB], envAllOk.stmtResult s = Except.ok s.text.length) ∧
    envAllOk.commitError = none ∧
    cbOutcomes (performTransaction envAllOk [sampleA, sampleB]) = [Except.ok [1, 2]] ∧
    countBegin (performTransaction envAllOk [sampleA, sampleB]) = 1 ∧
    countCommit (performTransaction envAllOk [sampleA, sampleB]) = 1 ∧
    countRollback (performTransaction envAllOk [sampleA, sampleB]) = 0 ∧
    countDone (performTransaction envAllOk [sampleA, sampleB]) = 1 :=
  ⟨by decide, rfl, rfl, by decide, rfl,
    transact_success_trace envAllOk [sampleA, sampleB] (fun s => s.text.length)
      (by decide) rfl rfl (by decide) rfl⟩

/-- C2: for every statement list in which statement `i` is the first to fail
(BEGIN having succeeded), `transact` issues exactly one ROLLBACK, never
attempts any statement after `i` (the executed statements are exactly
`pre ++ [cur]`), releases the connection exactly once, and the value
delivered to the caller is an error with no result sequence. -/
theorem transact_first_failure_rollback (env : TxEnv) (pre rest : List Statement)
    (cur : Statement) (e : Err)
    (hconn : env.connectError = none) (hbegin : env.beginError = none)
    (hpre : ∀ s ∈ pre, ∃ r, env.stmtResult s = Except.ok r)
    (hcur : env.stmtResult cur = Except.error e) :
    countRollback (performTransaction env (pre ++ cur :: rest)) = 1 ∧
    stmtsOf (performTransaction env (pre ++ cur :: rest)) = pre ++ [cur] ∧
    countDone (performTransaction env (pre ++ cur :: rest)) = 1 ∧
    ∃ e2, cbOutcomes (performTransaction env (pre ++ cur :: rest)) = [Except.error e2] := by
  have h := seqGo_first_fail env e cur rest pre [] hpre hcur
  have hshape : performTransaction env (pre ++ cur :: rest) =
      TxEvent.connect :: TxEvent.begin ::
        (pre.map TxEvent.stmt ++ TxEvent.stmt cur :: rollback env e) := by
    simp [performTransaction, hconn, hbegin, sequence, h]
  refine ⟨?_, ?_, ?_, ⟨env.rollbackError.getD e, ?_⟩⟩
  · have hrb := countRollback_rollback env e
    simp [countRollback] at hrb ⊢
    rw [hshape]
    simp [List.countP_append, List.countP_map, Function.comp_def, hrb]
  · rw [hshape]
    simp [stmtsOf_cons, stmtsOf_append, stmtsOf_map_stmt, stmtsOf_rollback]
  · have hdn := countDone_rollback env e
    simp [countDone] at hdn ⊢
    rw [hshape]
    simp [List.countP_append, List.countP_map, Function.comp_def, hdn]
  · rw [hshape]
    simp [cbOutcomes_cons, cbOutcomes_append, cbOutcomes_map_stmt, cbOutcomes_rollback]

/-- Witness for `transact_first_failure_rollback` at a concrete input. -/
theorem transact_first_failure_rollback_witness :
    envStmtFail.connectError = none ∧ envStmtFail.beginError = none ∧
    (∀ s ∈ [sampleA], ∃ r, envStmtFail.stmtResult s = Except.ok r) ∧
    envStmtFail.stmtResult sampleB = Except.error 9 ∧
    countRollback (performTransaction envStmtFail ([sampleA] ++ sampleB :: [sampleA])) = 1 ∧
    stmtsOf (performTransaction envStmtFail ([sampleA] ++ sampleB :: [sampleA])) =
      [sampleA] ++ [sampleB] ∧
    countDone (performTransaction envStmtFail ([sampleA] ++ sampleB :: [sampleA])) = 1 := by
  have hpre : ∀ s ∈ [sampleA], ∃ r, envStmtFail.stmtResult s = Except.ok r := by
    intro s hs
    rw [List.mem_singleton] at hs
    subst hs
    exact ⟨1, by decide⟩
  have main := transact_first_failure_rollback envStmtFail [sampleA] [sampleA] sampleB 9
    rfl rfl hpre (by decide)
  exact ⟨rfl, rfl, hpre, by decide, main.1, main.2.1, main.2.2.1⟩

/-- C3: on every exit path of a `transact` invocation that obtained a
connection lease (success, BEGIN failure, per-statement failure, COMMIT
failure, ROLLBACK failure — i.e. for every behaviour of BEGIN, the
statements, COMMIT and ROLLBACK), the lease's release function `done` is
invoked exactly once. -/
theorem transact_release_exactly_once (env : TxEnv) (qs : List Statement)
    (hconn : env.connectError = none) :
    countDone (performTransaction env qs) = 1 := by
  cases hb : env.beginError with
  | some e =>
    have hdn := countDone_rollback env e
    simp [countDone] at hdn
    simp [performTransaction, hconn, hb, countDone, hdn]
  | none =>
    have h := countDone_seqGo env qs []
    simp [countDone] at h
    simp [performTransaction, hconn, hb, sequence, countDone, h]

/-- Witness for `transact_release_exactly_once` at a concrete input. -/
theorem transact_release_exactly_once_witness :
    envRollbackFail.connectError = none ∧
    countDone (performTransaction envRollbackFail [sampleA]) = 1 :=
  ⟨rfl, transact_release_exactly_once envRollbackFail [sampleA] rfl⟩

/-- C4: whenever the transaction rollback path runs with triggering error
`e`: if the ROLLBACK statement itself succeeds the caller receives exactly
`e`, and if the ROLLBACK statement fails with error `r` the caller receives
`r` instead of `e` (the rollback error masks the original error). -/
theorem rollback_error_masking (env : TxEnv) (e : Err) :
    (env.rollbackError = none → cbOutcomes (rollback env e) = [Except.error e]) ∧
    (∀ r, env.rollbackError = some r → cbOutcomes (rollback env e) = [Except.error r]) := by
  constructor
  · intro h
    simp [rollback, h, cbOutcomes]
  · intro r h
    simp [rollback, h, cbOutcomes]

/-- Witness for `rollback_error_masking`: one behaviour where ROLLBACK
succeeds (original error 3 delivered) and one where ROLLBACK fails with 8
(8 masks 3). -/
theorem rollback_error_masking_witness :
    envRollbackOk.rollbackError = none ∧
    cbOutcomes (rollback envRollbackOk 3) = [Except.error 3] ∧
    envRollbackFail.rollbackError = some 8 ∧
    cbOutcomes (rollback envRollbackFail 3) = [Except.error 8] :=
  ⟨rfl, (rollback_error_masking envRollbackOk 3).1 rfl, rfl,
    (rollback_error_masking envRollbackFail 3).2 8 rfl⟩

/-- C8: for any statement list and any fixed behaviour of the pool and
connection, `transact(list, callback)` and awaiting `transact(list)` with no
callback are equivalent: the callback is invoked exactly once with some
outcome `o`, and the promise settles with exactly that `o` (equal result
sequences on success, equal error value on failure). -/
theorem transact_dual_mode_equiv (env : TxEnv) (qs : List Statement) :
    ∃ o, cbOutcomes (performTransaction env qs) = [o] ∧
      transactPromise env qs = some o := by
  obtain ⟨o, ho⟩ := cbOutcomes_performTransaction env qs
  exact ⟨o, ho, by simp [transactPromise, multiple, ho]⟩

/-! ### Claims about the parallel executor -/

/-- C5: for every statement list given to `parallel` in which all `N`
statements succeed, regardless of the order in which the `N` one-shot
queries complete (any permutation of the indices), the completion callback
fires with a success outcome exactly once — only after all `N` results have
been written: the single delivered array is fully populated and satisfies
`result[i] = f i`, the query result of `statements[i]`, for every index. -/
theorem parallel_success_index_aligned (env : Nat → Except Err Res)
    (queries : List Statement) (order : List Nat) (f : Nat → Res)
    (hperm : order.Perm (List.range queries.length))
    (hok : ∀ i < queries.length, env i = Except.ok (f i))
    (hne : queries ≠ []) :
    performParallel env queries order =
      [⟨none, (List.range queries.length).map fun i => some (f i)⟩] := by
  have hmem : ∀ i ∈ order, i < queries.length :=
    fun i hi => List.mem_range.1 (hperm.mem_iff.1 hi)
  have hlen : order.length = queries.length := by
    simpa [List.length_range] using hperm.length_eq
  have hne2 : order ≠ [] := by
    intro hc
    apply hne
    rw [hc] at hlen
    exact List.length_eq_zero.1 (by simpa using hlen.symm)
  have h := parRun_ok_full env queries.length f order
    ⟨0, List.replicate queries.length none⟩
    (fun i hi => hok i (hmem i hi)) (by simpa using hlen) hne2
  rw [performParallel, h, foldl_set_range f queries.length order hperm]

/-- Witness for `parallel_success_index_aligned`: two statements, completion
order staggered so that index 0 completes last, yet the delivered array is
index-aligned. -/
theorem parallel_success_index_aligned_witness :
    ([1, 0] : List Nat).Perm (List.range ([sampleA, sampleB] : List Statement).length) ∧
    (∀ i < ([sampleA, sampleB] : List Statement).length,
      (fun k => Except.ok (k + 10) : Nat → Except Err Res) i = Except.ok (i + 10)) ∧
    ([sampleA, sampleB] : List Statement) ≠ [] ∧
    performParallel (fun k => Except.ok (k + 10)) [sampleA, sampleB] [1, 0] =
      [⟨none, [some 10, some 11]⟩] :=
  ⟨by decide, by decide, by decide,
    parallel_success_index_aligned (fun k => Except.ok (k + 10)) [sampleA, sampleB]
      [1, 0] (fun k => k + 10) (by decide) (by decide) (by decide)⟩

/-- C6: when a statement in a parallel batch fails, callback mode invokes the
completion callback immediately at that completion with the error and the
results array exactly as populated at that moment, without waiting for or
cancelling in-flight statements (the run continues over `rest` from an
unchanged state); promise mode on the same batch settles exactly once, with
a rejection carrying the first error in completion order and no results
array. -/
theorem parallel_failure_report (env : Nat → Except Err Res)
    (queries : List Statement) (order pre rest : List Nat) (i : Nat) (e : Err)
    (s : ParState)
    (horder : order = pre ++ i :: rest)
    (hpre : ∀ j ∈ pre, exceptIsOk (env j) = true)
    (hi : env i = Except.error e)
    (hlen : order.length ≤ queries.length) :
    (parRun env queries.length s (i :: rest)).2 =
      ⟨some e, s.results⟩ :: (parRun env queries.length s rest).2 ∧
    parallelPromise env queries order = some (Except.error e) := by
  constructor
  · simp [parRun, parStep, hi]
  · have hprelen : 0 + pre.length < queries.length := by
      rw [horder] at hlen
      simp [List.length_append, List.length_cons] at hlen
      omega
    have hzero := parRun_ok_no_call env queries.length pre
      ⟨0, List.replicate queries.length none⟩ hpre hprelen
    have hsplit := parRun_append env queries.length pre (i :: rest)
      ⟨0, List.replicate queries.length none⟩
    have hstep : (parRun env queries.length
        (parRun env queries.length ⟨0, List.replicate queries.length none⟩ pre).1
        (i :: rest)).2 =
        ⟨some e, (parRun env queries.length
          ⟨0, List.replicate queries.length none⟩ pre).1.results⟩ ::
        (parRun env queries.length
          (parRun env queries.length ⟨0, List.replicate queries.length none⟩ pre).1
          rest).2 := by
      simp [parRun, parStep, hi]
    rw [parallelPromise, multiple, performParallel, horder, hsplit]
    simp [hzero, hstep, settleCall]

/-- A pool behaviour where query 0 fails with error 5 and every other query
returns 7. -/
def envZeroFails : Nat → Except Err Res :=
  fun k => if k = 0 then Except.error 5 else Except.ok 7

/-- Witness for `parallel_failure_report`: index 1 succeeds first, index 0
then fails; the promise rejects with index 0's error. -/
theorem parallel_failure_report_witness :
    ([1, 0] : List Nat) = [1] ++ 0 :: [] ∧
    (∀ j ∈ ([1] : List Nat), exceptIsOk (envZeroFails j) = true) ∧
    envZeroFails 0 = Except.error 5 ∧
    ([1, 0] : List Nat).length ≤ ([sampleA, sampleB] : List Statement).length ∧
    parallelPromise envZeroFails [sampleA, sampleB] [1, 0] = some (Except.error 5) :=
  ⟨rfl, by decide, by decide, by decide,
    (parallel_failure_report envZeroFails [sampleA, sampleB] [1, 0] [1] [] 0 5
      ⟨0, [none, none]⟩ rfl (by decide) (by decide) (by decide)).2⟩

/-- A pool behaviour where every query fails (query `i` fails with error `i`). -/
def envAllFail : Nat → Except Err Res := fun i => Except.error i

/-- C7, counterexample: a parallel batch of two statements that both fail,
with callback mode, invokes the caller-visible completion callback twice in
one invocation — not exactly once as the claim states. -/
theorem parallel_completion_twice_cex :
    performParallel envAllFail [sampleA, sampleB] [0, 1] =
      [⟨some 0, [none, none]⟩, ⟨some 1, [none, none]⟩] ∧
    (performParallel envAllFail [sampleA, sampleB] [0, 1]).length ≠ 1 := by
  constructor
  · rfl
  · decide

/-- C7, amended: `transact` invokes its caller-visible completion mechanism
exactly once per invocation on every path; `parallel` in callback mode
invokes the completion callback exactly once per failing statement
completion — so an invocation whose batch has several failing statements
signals completion more than once (no error is ever swallowed; promise mode
settles at most once, by first settle). -/
theorem completion_signalling_amended :
    (∀ (env : TxEnv) (qs : List Statement),
      (cbOutcomes (performTransaction env qs)).length = 1) ∧
    (∀ (env : Nat → Except Err Res) (queries : List Statement) (order : List Nat),
      errorCount (performParallel env queries order) =
        order.countP fun i => !exceptIsOk (env i)) := by
  constructor
  · intro env qs
    obtain ⟨o, ho⟩ := cbOutcomes_performTransaction env qs
    rw [ho]
    rfl
  · intro env queries order
    exact parRun_error_per_failure env queries.length order
      ⟨0, List.replicate queries.length none⟩

/-- C9: for the empty statement list, `performParallel` never invokes its
completion callback at all (no one-shot query is ever issued, so no
completion ever fires and the counter check is never reached):
`parallel([], callback)` makes no callback invocation, and `parallel([])`
with no callback returns a promise that is never settled — in contrast to
the sequential driver `sequence`, which completes immediately on an empty
list by invoking its completion callback with the empty accumulator. -/
theorem parallel_empty_never_completes (env : Nat → Except Err Res)
    {α β γ : Type} (each : List β → α → (List β → γ) → γ) (fin : List β → γ) :
    performParallel env [] [] = [] ∧
    parallelPromise env [] [] = none ∧
    sequence ([] : List α) each fin = fin [] :=
  ⟨rfl, rfl, rfl⟩

/-- C10: in every valid run of `performParallel` (each issued query
completes at most once, indices in range), the success completion occurs at
most once per invocation, and only if every one of the `N` statements
succeeded: if a success completion occurred, every index below `N` was
completed and succeeded (so once any statement has failed, the counter can
never reach the list length and the success completion can never fire). -/
theorem parallel_success_at_most_once (env : Nat → Except Err Res)
    (queries : List Statement) (order : List Nat)
    (hnd : order.Nodup) (hb : ∀ i ∈ order, i < queries.length) :
    successCount (performParallel env queries order) ≤ 1 ∧
    (1 ≤ successCount (performParallel env queries order) →
      ∀ i < queries.length, i ∈ order ∧ exceptIsOk (env i) = true) := by
  have hsub : order ⊆ List.range queries.length :=
    fun i hi => List.mem_range.2 (hb i hi)
  have hsubperm := List.subperm_of_subset hnd hsub
  have hlen : order.length ≤ queries.length := by
    simpa [List.length_range] using hsubperm.length_le
  have hinv := parRun_success_invariant env queries.length order
    ⟨0, List.replicate queries.length none⟩ (by simpa using hlen)
  refine ⟨hinv.1, fun h1 => ?_⟩
  have h2 := hinv.2 h1
  have hfull : order.length = queries.length := by
    have := h2.2
    simp at this
    omega
  have hperm : order.Perm (List.range queries.length) :=
    hsubperm.perm_of_length_le (by simpa [List.length_range] using hfull.ge)
  intro i hi
  exact ⟨hperm.mem_iff.2 (List.mem_range.2 hi), h2.1 i (hperm.mem_iff.2 (List.mem_range.2 hi))⟩

/-- Witness for `parallel_success_at_most_once` at a concrete input. -/
theorem parallel_success_at_most_once_witness :
    ([0, 1] : List Nat).Nodup ∧
    (∀ i ∈ ([0, 1] : List Nat), i < ([sampleA, sampleB] : List Statement).length) ∧
    successCount (performParallel (fun k => Except.ok (k + 10)) [sampleA, sampleB] [0, 1]) ≤ 1 :=
  ⟨by decide, by decide,
    (parallel_success_at_most_once (fun k => Except.ok (k + 10)) [sampleA, sampleB]
      [0, 1] (by decide) (by decide)).1⟩

end Pga
